import Mathlib

/-!
Shallow embedding of the part9 search engine (`models.py`, `app.py`):
span finding (`Sonnet.find_spans`), document matching (`Sonnet.search_for`),
result combination (`SearchResult.combine_with`), span rendering
(`SearchResult.ansi_highlight`), and the query driver's per-word fold and
display logic (`app.main`, `app.print_results`).

Modelling conventions: Python strings are `List Char`; `str.lower` is
modelled character-wise by `Char.toLower`; Python's slicing `x[i:j]` at
non-negative indices is `pySlice`; match counts are `Nat` (the program
only ever stores non-negative counts, or forces the count to `0`).
-/

/-- Python slice `text[i:j]` for non-negative `i`, `j`: clamps past the
end of the list and is empty when `j ≤ i`. -/
def pySlice (l : List Char) (i j : Nat) : List Char := (l.take j).drop i

/-- Python `s.lower()`, modelled character-wise. -/
def lowerStr (s : List Char) : List Char := s.map Char.toLower

/-- The characters of a string literal. -/
def str (s : String) : List Char := s.data

/-- Model of `models.LineMatch`: 1-based line number, original-case line text and
the spans found in the (lowercased) line. -/
structure LineMatch where
  line_no : Nat
  text : List Char
  spans : List (Nat × Nat)
deriving DecidableEq

/-- Model of `models.SearchResult`: per-document match record. -/
structure SearchResult where
  title : List Char
  title_spans : List (Nat × Nat)
  line_matches : List LineMatch
  «matches» : Nat
deriving DecidableEq

/-- Model of `models.Sonnet`: a document with a title and ordered lines. -/
structure Sonnet where
  title : List Char
  lines : List (List Char)

/-- Model of `Sonnet.find_spans`: every (possibly overlapping) occurrence of
`pattern` in `text` as a half-open span, scanning left to right. The
Python loop bound `range(len(text) - len(pattern) + 1)` (an empty range
when the bound is negative) is `text.length + 1 - pattern.length` in
truncated `Nat` subtraction, which describes the same index set. -/
def find_spans (text pattern : List Char) : List (Nat × Nat) :=
  if pattern.isEmpty then []
  else
    (List.range (text.length + 1 - pattern.length)).filterMap fun i =>
      if pySlice text i (i + pattern.length) = pattern then
        some (i, i + pattern.length)
      else none

/-- Body of the line loop in `Sonnet.search_for`: given an already
lowercased query and a 1-based-numbered original-case line, emit a
`LineMatch` when the lowercased line has a non-empty span list, nothing
otherwise. -/
def line_match_of (q : List Char) (p : Nat × List Char) : Option LineMatch :=
  let spans := find_spans (lowerStr p.2) q
  if spans.isEmpty then none
  else some { line_no := p.1, text := p.2, spans := spans }

/-- The line loop of `Sonnet.search_for`: enumerate the lines from 1 and
keep only the matching ones. -/
def search_lines (lines : List (List Char)) (q : List Char) : List LineMatch :=
  (lines.enumFrom 1).filterMap (line_match_of q)

/-- Model of `Sonnet.search_for`: lowercase the query once, match the lowercased
title and each lowercased line (1-based numbering); keep a `LineMatch`
(with the original-case line text) only for lines whose span list is
non-empty; `matches` is the total span count. -/
def search_for (doc : Sonnet) (query : List Char) : SearchResult :=
  let q := lowerStr query
  let title_spans := find_spans (lowerStr doc.title) q
  let line_matches := search_lines doc.lines q
  { title := doc.title
    title_spans := title_spans
    line_matches := line_matches
    «matches» := title_spans.length + (line_matches.map fun lm => lm.spans.length).sum }

/-- Python's tuple ordering on spans, as used by `sorted`. -/
def spanLe (x y : Nat × Nat) : Bool :=
  decide (x.1 < y.1 ∨ (x.1 = y.1 ∧ x.2 ≤ y.2))

/-- Python `sorted` on a span list (`mergeSort` is stable, like Python's
sort, so this is an exact model). -/
def sortSpans (l : List (Nat × Nat)) : List (Nat × Nat) := l.mergeSort spanLe

/-- Value of the `lines_by_no` merge inside `SearchResult.combine_with`:
every line of `a` receives, appended in order, the spans of `b`'s lines
with the same line number; lines of `b` whose number does not occur in
`a` are added; the result is sorted by line number. Line numbers are
distinct within every result the program constructs (`search_for` emits
strictly increasing numbers and combination preserves distinctness), so
this list model of the Python dict keyed by `line_no` is exact. -/
def combine_line_matches (la lb : List LineMatch) : List LineMatch :=
  let updated := la.map fun lm =>
    { lm with spans := lm.spans ++
        ((lb.filter fun x => x.line_no == lm.line_no).map fun x => x.spans).flatten }
  let bOnly := lb.filter fun x => la.all fun y => y.line_no != x.line_no
  (updated ++ bOnly).mergeSort fun u v => u.line_no ≤ v.line_no

/-- Model of `SearchResult.combine_with`: the returned combined value. `matches`
is the plain sum, `title_spans` the sorted concatenation, `line_matches`
the per-line merge keyed by line number. -/
def combine_with (a b : SearchResult) : SearchResult :=
  { title := a.title
    title_spans := sortSpans (a.title_spans ++ b.title_spans)
    line_matches := combine_line_matches a.line_matches b.line_matches
    «matches» := a.matches + b.matches }

/-- Observable state of the receiver `a` after `a.combine_with(b)` runs:
the source shallow-copies `a`, so the `lines_by_no` dict holds `a`'s own
`LineMatch` objects, and `lines_by_no[ln].spans.extend(lm.spans)`
mutates them in place. `a.matches`, `a.title_spans` and `a.line_matches`
itself are untouched (those attributes are only reassigned on the copy),
but every line match of `a` whose line number also occurs in `b` gets
`b`'s spans for that line appended to its span list. -/
def combine_with_self_after (a b : SearchResult) : SearchResult :=
  { a with line_matches := a.line_matches.map fun lm =>
      { lm with spans := lm.spans ++
          ((b.line_matches.filter fun x => x.line_no == lm.line_no).map fun x => x.spans).flatten } }

/-- One AND-mode fold step of `app.main` for one document: combine when
both sides have matches; otherwise the running result's `matches` field
is set to `0` in place and nothing else changes. -/
def andStep (combined r : SearchResult) : SearchResult :=
  if combined.matches > 0 ∧ r.matches > 0 then combine_with combined r
  else { combined with «matches» := 0 }

/-- One OR-mode fold step of `app.main`: unconditional combination. -/
def orStep (combined r : SearchResult) : SearchResult := combine_with combined r

/-- ANSI reset code appended after each highlighted run. -/
def resetCode : List Char := str "\x1b[0m"

/-- ANSI code for the `GREEN` highlight mode (bold light-green text). -/
def greenCode : List Char := str "\x1b[1;92m"

/-- ANSI code for any other highlight mode (yellow background, black text). -/
def defaultCode : List Char := str "\x1b[43m\x1b[30m"

/-- Colour code chosen by `ansi_highlight` from the highlight mode. -/
def colorOf (highlight_mode : String) : List Char :=
  if highlight_mode = "GREEN" then greenCode else defaultCode

/-- The span-merging loop of `ansi_highlight`: a span starting at or
before the current run's end (`s ≤ current_end`) extends the run,
otherwise the run is emitted and a new run starts. -/
def mergeLoop (cs ce : Nat) : List (Nat × Nat) → List (Nat × Nat)
  | [] => [(cs, ce)]
  | (s, e) :: rest =>
    if s ≤ ce then mergeLoop cs (max ce e) rest
    else (cs, ce) :: mergeLoop s e rest

/-- Merged maximal runs of a sorted span list, seeded from its first span. -/
def mergeRuns : List (Nat × Nat) → List (Nat × Nat)
  | [] => []
  | (s, e) :: rest => mergeLoop s e rest

/-- The output-building loop of `ansi_highlight`: for each merged run
`(s, e)` emit `text[i:s]`, the colour code, `text[s:e]` and the reset
code, and finally the tail `text[i:]`. -/
def buildOut (text color : List Char) : Nat → List (Nat × Nat) → List Char
  | i, [] => text.drop i
  | i, (s, e) :: rest =>
    pySlice text i s ++ color ++ pySlice text s e ++ resetCode ++ buildOut text color e rest

/-- Model of `SearchResult.ansi_highlight`: returns `text` unchanged for an empty
span list, otherwise sorts the spans, merges them into maximal runs and
wraps each run in one colour/reset marker pair. -/
def ansi_highlight (text : List Char) (spans : List (Nat × Nat)) (highlight_mode : String) : List Char :=
  if spans.isEmpty then text
  else buildOut text (colorOf highlight_mode) 0 (mergeRuns (sortSpans spans))

/-- A piece of renderer output: verbatim text or an inserted marker. -/
inductive Piece where
  | txt (cs : List Char)
  | marker (cs : List Char)
deriving DecidableEq

/-- Variant of `buildOut` with each emitted piece tagged as verbatim text or as an
inserted highlight marker. -/
def buildPieces (text color : List Char) : Nat → List (Nat × Nat) → List Piece
  | i, [] => [Piece.txt (text.drop i)]
  | i, (s, e) :: rest =>
    Piece.txt (pySlice text i s) :: Piece.marker color :: Piece.txt (pySlice text s e)
      :: Piece.marker resetCode :: buildPieces text color e rest

/-- The `ansi_highlight` output as tagged pieces. -/
def renderPieces (text : List Char) (spans : List (Nat × Nat)) (highlight_mode : String) : List Piece :=
  if spans.isEmpty then [Piece.txt text]
  else buildPieces text (colorOf highlight_mode) 0 (mergeRuns (sortSpans spans))

/-- Concatenation of all pieces: the rendered string itself. -/
def joinPieces (ps : List Piece) : List Char :=
  (ps.map fun p => match p with | Piece.txt cs => cs | Piece.marker cs => cs).flatten

/-- Concatenation of the text pieces only: the rendered string with every
inserted marker removed. -/
def stripPieces (ps : List Piece) : List Char :=
  (ps.map fun p => match p with | Piece.txt cs => cs | Piece.marker _ => []).flatten

/-- Model of `app.print_results`: the sublist of results that are displayed
(those with `matches > 0`). -/
def matched_results (results : List SearchResult) : List SearchResult :=
  results.filter fun r => r.matches > 0

/-- The summary line printed by `app.print_results` (without the optional
query-time suffix). -/
def summary_line (query : String) (results : List SearchResult) : String :=
  toString (matched_results results).length ++ " out of " ++ toString results.length
    ++ " sonnets contain \"" ++ query ++ "\"."

/-- The display loop of `app.print_results`: the matched results paired
with their 1-based display numbers (`enumerate(matched, start=1)`). -/
def displayed (results : List SearchResult) : List (Nat × SearchResult) :=
  (matched_results results).enumFrom 1

/-- The §3 invariant: `matches` equals the total span count over the
title and all retained lines. -/
def resInvariant (r : SearchResult) : Prop :=
  r.matches = r.title_spans.length + (r.line_matches.map fun lm => lm.spans.length).sum

instance (r : SearchResult) : Decidable (resInvariant r) := by
  unfold resInvariant; infer_instance

/-! ### Facts about `pySlice` and `find_spans` -/

theorem pySlice_length (l : List Char) (i j : Nat) :
    (pySlice l i j).length = min j l.length - i := by
  simp [pySlice]

theorem drop_take_append_drop {α : Type} :
    ∀ (m : List α) (i s : Nat), i ≤ s → (m.take s).drop i ++ m.drop s = m.drop i
  | [], _, _, _ => by simp
  | _ :: _, _, 0, h => by
    simp [Nat.le_zero.mp h]
  | a :: m, 0, s + 1, _ => by
    simp [List.take_append_drop (s + 1) (a :: m)]
  | a :: m, i + 1, s + 1, h =>
    drop_take_append_drop m i s (Nat.le_of_succ_le_succ h)

theorem pySlice_glue (l : List Char) {i s e : Nat} (h1 : i ≤ s) (h2 : s ≤ e) :
    pySlice l i s ++ pySlice l s e = pySlice l i e := by
  unfold pySlice
  have ht : l.take s = (l.take e).take s := by
    rw [List.take_take, Nat.min_eq_left h2]
  rw [ht, drop_take_append_drop (l.take e) i s h1]

theorem pySlice_glue_drop (l : List Char) {i e : Nat} (h : i ≤ e) :
    pySlice l i e ++ l.drop e = l.drop i := by
  unfold pySlice
  exact drop_take_append_drop l i e h

theorem mem_find_spans {text pattern : List Char} (hp : pattern ≠ []) {s e : Nat} :
    (s, e) ∈ find_spans text pattern ↔
      s + pattern.length ≤ text.length ∧ e = s + pattern.length ∧
        pySlice text s (s + pattern.length) = pattern := by
  have hplen : 0 < pattern.length := List.length_pos.mpr hp
  unfold find_spans
  rw [if_neg (by simpa [List.isEmpty_iff] using hp)]
  simp only [List.mem_filterMap, List.mem_range, Option.ite_none_right_eq_some,
    Option.some.injEq, Prod.mk.injEq]
  constructor
  · rintro ⟨i, hi, hc, rfl, rfl⟩
    have hl := congrArg List.length hc
    rw [pySlice_length] at hl
    exact ⟨by omega, rfl, hc⟩
  · rintro ⟨hb, rfl, hs⟩
    exact ⟨s, by omega, hs, rfl, rfl⟩

theorem find_spans_sorted (text pattern : List Char) :
    (find_spans text pattern).Pairwise fun x y => x.1 < y.1 := by
  unfold find_spans
  split
  · exact List.Pairwise.nil
  · refine List.pairwise_filterMap.2 ?_
    refine (List.pairwise_lt_range _).imp ?_
    intro i j hij b hb b' hb'
    simp only [Option.mem_def, Option.ite_none_right_eq_some, Option.some.injEq] at hb hb'
    obtain ⟨-, rfl⟩ := hb
    obtain ⟨-, rfl⟩ := hb'
    exact hij

theorem find_spans_nil_text {pattern : List Char} (hp : pattern ≠ []) :
    find_spans [] pattern = [] := by
  have hplen : 0 < pattern.length := List.length_pos.mpr hp
  unfold find_spans
  rw [if_neg (by simpa [List.isEmpty_iff] using hp)]
  have h0 : ([] : List Char).length + 1 - pattern.length = 0 := by simp; omega
  rw [h0]
  rfl

theorem find_spans_long_pattern {text pattern : List Char}
    (h : text.length < pattern.length) : find_spans text pattern = [] := by
  have hp : pattern ≠ [] := by
    intro hnil
    rw [hnil] at h
    simp at h
  unfold find_spans
  rw [if_neg (by simpa [List.isEmpty_iff] using hp)]
  have h0 : text.length + 1 - pattern.length = 0 := by omega
  rw [h0]
  rfl

/-- C5: for a non-empty pattern, `find_spans` returns exactly the spans
`(i, i + len pattern)` at the offsets where the length-`len pattern`
substring of `text` equals `pattern`, in ascending start order with
overlapping matches retained; an empty pattern, an empty text, and a
pattern longer than the text all give `[]`; and concretely
`find_spans "aaa" "aa" = [(0,2),(1,3)]` and `find_spans "abc" "xyz" = []`. -/
theorem find_spans_spec (text pattern : List Char) (hp : pattern ≠ []) :
    (∀ s e : Nat,
        (s, e) ∈ find_spans text pattern ↔
          s + pattern.length ≤ text.length ∧ e = s + pattern.length ∧
            pySlice text s (s + pattern.length) = pattern) ∧
      (find_spans text pattern).Pairwise (fun x y => x.1 < y.1) ∧
      find_spans text [] = [] ∧
      find_spans [] pattern = [] ∧
      (text.length < pattern.length → find_spans text pattern = []) ∧
      find_spans (str "aaa") (str "aa") = [(0, 2), (1, 3)] ∧
      find_spans (str "abc") (str "xyz") = [] :=
  ⟨fun _ _ => mem_find_spans hp, find_spans_sorted _ _, rfl, find_spans_nil_text hp,
    fun h => find_spans_long_pattern h, by decide, by decide⟩

/-- Witness for `find_spans_spec`: the characterisation applied at a
concrete text, pattern and span. -/
theorem find_spans_spec_witness : (0, 2) ∈ find_spans (str "aaa") (str "aa") :=
  ((find_spans_spec (str "aaa") (str "aa") (by decide)).1 0 2).mpr (by decide)

/-- C10: every span returned by `find_spans` for a non-empty pattern has
end offset equal to start plus the pattern length, lies within the text
(so the span has exactly the pattern's length and is in bounds), and
consecutive spans have strictly increasing start offsets. -/
theorem find_spans_bounds (text pattern : List Char) (hp : pattern ≠ []) :
    (∀ pr ∈ find_spans text pattern,
        pr.2 = pr.1 + pattern.length ∧ pr.2 ≤ text.length) ∧
      (find_spans text pattern).Pairwise fun x y => x.1 < y.1 := by
  refine ⟨?_, find_spans_sorted _ _⟩
  rintro ⟨s, e⟩ hm
  obtain ⟨h1, h2, -⟩ := (mem_find_spans hp).1 hm
  omega

/-- Witness for `find_spans_bounds` at a concrete input. -/
theorem find_spans_bounds_witness :
    (0, 2).2 = (0, 2).1 + (str "aa").length ∧ (0, 2).2 ≤ (str "aaa").length :=
  (find_spans_bounds (str "aaa") (str "aa") (by decide)).1 (0, 2) (by decide)

/-! ### Facts about `search_for` -/

theorem search_for_title_spans (doc : Sonnet) (query : List Char) :
    (search_for doc query).title_spans = find_spans (lowerStr doc.title) (lowerStr query) := rfl

theorem search_for_line_matches (doc : Sonnet) (query : List Char) :
    (search_for doc query).line_matches = search_lines doc.lines (lowerStr query) := rfl

theorem line_match_of_eq_some {q : List Char} {p : Nat × List Char} {lm : LineMatch} :
    line_match_of q p = some lm ↔
      find_spans (lowerStr p.2) q ≠ [] ∧
        lm = ⟨p.1, p.2, find_spans (lowerStr p.2) q⟩ := by
  unfold line_match_of
  dsimp only
  split
  · rename_i hsp
    rw [List.isEmpty_iff] at hsp
    simp [hsp]
  · rename_i hsp
    rw [List.isEmpty_iff] at hsp
    simp only [Option.some.injEq]
    constructor
    · intro h
      exact ⟨hsp, h.symm⟩
    · intro h
      exact h.2.symm

theorem mem_search_lines {lines : List (List Char)} {q : List Char} {lm : LineMatch}
    (h : lm ∈ search_lines lines q) :
    lm.spans ≠ [] ∧ 1 ≤ lm.line_no ∧ lines[lm.line_no - 1]? = some lm.text ∧
      lm.spans = find_spans (lowerStr lm.text) q := by
  unfold search_lines at h
  rw [List.mem_filterMap] at h
  obtain ⟨⟨i, line⟩, hmem, hf⟩ := h
  obtain ⟨hne, rfl⟩ := line_match_of_eq_some.1 hf
  obtain ⟨h1, h2⟩ := List.mk_mem_enumFrom_iff_le_and_getElem?_sub.1 hmem
  exact ⟨hne, h1, by simpa using h2, rfl⟩

theorem search_lines_omits {lines : List (List Char)} {q : List Char} {i : Nat}
    {line : List Char} (hline : lines[i]? = some line)
    (hempty : find_spans (lowerStr line) q = []) :
    ∀ lm ∈ search_lines lines q, lm.line_no ≠ i + 1 := by
  intro lm hlm heq
  unfold search_lines at hlm
  rw [List.mem_filterMap] at hlm
  obtain ⟨⟨j, line'⟩, hmem, hf⟩ := hlm
  obtain ⟨hne, rfl⟩ := line_match_of_eq_some.1 hf
  obtain ⟨h1, h2⟩ := List.mk_mem_enumFrom_iff_le_and_getElem?_sub.1 hmem
  simp only at heq
  have hj : j - 1 = i := by omega
  rw [hj, hline] at h2
  have : line = line' := by simpa using h2
  exact hne (this ▸ hempty)

/-- C8: `search_for` matches the lowercased query against the lowercased
title and each lowercased line with 1-based numbering; every retained
`LineMatch` has a non-empty span list, carries the original-case line
text at its 1-based position, and its spans are exactly the span-finder
output for that line; lines with zero spans are omitted entirely;
`matches` is the total span count; and for the document with title
"Sonnet" and lines ["a rose", "rose red"], querying "rose" yields
`matches = 2`, one line match per line, and empty title spans. -/
theorem search_for_spec (doc : Sonnet) (query : List Char) :
    (search_for doc query).title_spans = find_spans (lowerStr doc.title) (lowerStr query) ∧
      (∀ lm ∈ (search_for doc query).line_matches,
        lm.spans ≠ [] ∧ 1 ≤ lm.line_no ∧ doc.lines[lm.line_no - 1]? = some lm.text ∧
          lm.spans = find_spans (lowerStr lm.text) (lowerStr query)) ∧
      (∀ (i : Nat) (line : List Char), doc.lines[i]? = some line →
        find_spans (lowerStr line) (lowerStr query) = [] →
        ∀ lm ∈ (search_for doc query).line_matches, lm.line_no ≠ i + 1) ∧
      (search_for doc query).matches =
        (search_for doc query).title_spans.length +
          ((search_for doc query).line_matches.map fun lm => lm.spans.length).sum ∧
      (search_for ⟨str "Sonnet", [str "a rose", str "rose red"]⟩ (str "rose")).matches = 2 ∧
      (search_for ⟨str "Sonnet", [str "a rose", str "rose red"]⟩ (str "rose")).title_spans
          = [] ∧
      ((search_for ⟨str "Sonnet", [str "a rose", str "rose red"]⟩
          (str "rose")).line_matches.map fun lm => lm.line_no) = [1, 2] := by
  refine ⟨rfl, ?_, ?_, rfl, by decide, by decide, by decide⟩
  · intro lm hlm
    rw [search_for_line_matches] at hlm
    exact mem_search_lines hlm
  · intro i line hline hempty lm hlm
    rw [search_for_line_matches] at hlm
    exact search_lines_omits hline hempty lm hlm

/-- Witness for `search_for_spec`: the line-match characterisation and
the omission property applied at the concrete example document. -/
theorem search_for_spec_witness :
    ((search_for ⟨str "Sonnet", [str "a rose", str "never"]⟩ (str "rose")).line_matches.map
        fun lm => lm.line_no) = [1] ∧
      (∀ lm ∈ (search_for ⟨str "Sonnet", [str "a rose", str "never"]⟩
          (str "rose")).line_matches, lm.line_no ≠ 2) :=
  ⟨by decide,
    (search_for_spec ⟨str "Sonnet", [str "a rose", str "never"]⟩ (str "rose")).2.2.1
      1 (str "never") (by decide) (by decide)⟩

/-! ### Facts about the per-word fold and result combination -/

theorem orStep_matches (a b : SearchResult) :
    (orStep a b).matches = a.matches + b.matches := rfl

theorem foldl_orStep_matches (first : SearchResult) (rest : List SearchResult) :
    (rest.foldl orStep first).matches =
      first.matches + (rest.map fun r => r.matches).sum := by
  induction rest generalizing first with
  | nil => simp
  | cons r rs ih =>
    simp only [List.foldl_cons, List.map_cons, List.sum_cons]
    rw [ih, orStep_matches]
    omega

theorem foldl_andStep_pos (first : SearchResult) (rest : List SearchResult) :
    0 < (rest.foldl andStep first).matches ↔
      0 < first.matches ∧ ∀ r ∈ rest, 0 < r.matches := by
  induction rest generalizing first with
  | nil => simp
  | cons r rs ih =>
    rw [List.foldl_cons, ih]
    by_cases h : 0 < first.matches ∧ 0 < r.matches
    · rw [andStep, if_pos h]
      have hm : (combine_with first r).matches = first.matches + r.matches := rfl
      constructor
      · rintro ⟨-, hall⟩
        exact ⟨h.1, fun x hx => by
          rcases List.mem_cons.1 hx with hx | hx
          · exact hx ▸ h.2
          · exact hall x hx⟩
      · rintro ⟨-, hall⟩
        exact ⟨by rw [hm]; omega, fun x hx => hall x (List.mem_cons_of_mem r hx)⟩
    · rw [andStep, if_neg h]
      constructor
      · rintro ⟨hz, -⟩
        exact absurd hz (by simp)
      · rintro ⟨hf, hall⟩
        exact absurd ⟨hf, hall r (List.mem_cons_self r rs)⟩ h

theorem foldl_orStep_pos (first : SearchResult) (rest : List SearchResult) :
    0 < (rest.foldl orStep first).matches ↔
      0 < first.matches ∨ ∃ r ∈ rest, 0 < r.matches := by
  rw [foldl_orStep_matches]
  have hsum : (rest.map fun r => r.matches).sum = 0 ↔ ∀ r ∈ rest, r.matches = 0 := by
    rw [List.sum_eq_zero_iff]
    simp
  constructor
  · intro h
    by_cases hf : 0 < first.matches
    · exact Or.inl hf
    · right
      by_contra hne
      push_neg at hne
      have : (rest.map fun r => r.matches).sum = 0 :=
        hsum.2 fun r hr => by have := hne r hr; omega
      omega
  · rintro (hf | ⟨r, hr, hpos⟩)
    · omega
    · have : (rest.map fun r => r.matches).sum ≠ 0 := fun h0 => by
        have := hsum.1 h0 r hr
        omega
      omega

/-- C4: seeding the per-document combined result with the first word's
result and folding the remaining words left to right, AND mode ends with
`matches > 0` iff every word's own result had `matches > 0`, and OR mode
ends with `matches > 0` iff at least one word's result did. -/
theorem fold_mode_spec (first : SearchResult) (rest : List SearchResult) :
    (0 < (rest.foldl andStep first).matches ↔
        0 < first.matches ∧ ∀ r ∈ rest, 0 < r.matches) ∧
      (0 < (rest.foldl orStep first).matches ↔
        0 < first.matches ∨ ∃ r ∈ rest, 0 < r.matches) :=
  ⟨foldl_andStep_pos first rest, foldl_orStep_pos first rest⟩

/-- Witness for `fold_mode_spec` at concrete per-word results. -/
theorem fold_mode_spec_witness :
    0 < (([⟨str "T", [(1, 2)], [], 1⟩] : List SearchResult).foldl andStep
        ⟨str "T", [(0, 1)], [], 1⟩).matches ∧
      ¬ 0 < (([⟨str "T", [], [], 0⟩] : List SearchResult).foldl andStep
        ⟨str "T", [(0, 1)], [], 1⟩).matches ∧
      0 < (([⟨str "T", [], [], 0⟩] : List SearchResult).foldl orStep
        ⟨str "T", [(0, 1)], [], 1⟩).matches :=
  ⟨(fold_mode_spec ⟨str "T", [(0, 1)], [], 1⟩ [⟨str "T", [(1, 2)], [], 1⟩]).1.mpr
      ⟨by decide, by decide⟩,
    fun h => by
      have := ((fold_mode_spec ⟨str "T", [(0, 1)], [], 1⟩ [⟨str "T", [], [], 0⟩]).1.mp h).2
        ⟨str "T", [], [], 0⟩ (List.mem_singleton.2 rfl)
      exact absurd this (by decide),
    (fold_mode_spec ⟨str "T", [(0, 1)], [], 1⟩ [⟨str "T", [], [], 0⟩]).2.mpr
      (Or.inl (by decide))⟩

/-- C2 counterexample: when the AND test fails, the running result's
spans are not discarded — only `matches` is forced to `0`; here the
title span `(0, 1)` recorded for an earlier word survives the step. -/
theorem andStep_counterexample :
    (andStep ⟨str "T", [(0, 1)], [], 1⟩ ⟨str "T", [], [], 0⟩).matches = 0 ∧
      (andStep ⟨str "T", [(0, 1)], [], 1⟩ ⟨str "T", [], [], 0⟩).title_spans = [(0, 1)] ∧
      (andStep ⟨str "T", [(0, 1)], [], 1⟩ ⟨str "T", [], [], 0⟩).title_spans ≠ [] := by
  decide

/-- C2 (amended): under AND mode, when both the running combined result
and the per-word result have matches, the fold combines them with
`combine_with`; otherwise the document's cumulative result has only its
`matches` field forced to `0` — its title spans and line matches are
retained unchanged in the record (the document is nonetheless excluded
from display, since `matches = 0` and spans of undisplayed documents are
never rendered). -/
theorem andStep_spec (combined r : SearchResult) :
    (0 < combined.matches → 0 < r.matches →
        andStep combined r = combine_with combined r) ∧
      (combined.matches = 0 ∨ r.matches = 0 →
        (andStep combined r).matches = 0 ∧
          (andStep combined r).title_spans = combined.title_spans ∧
          (andStep combined r).line_matches = combined.line_matches ∧
          (andStep combined r).title = combined.title) := by
  constructor
  · intro h1 h2
    rw [andStep, if_pos ⟨h1, h2⟩]
  · intro h
    have hn : ¬(0 < combined.matches ∧ 0 < r.matches) := by omega
    rw [andStep, if_neg hn]
    exact ⟨rfl, rfl, rfl, rfl⟩

/-- Witness for `andStep_spec`: both branches at concrete inputs. -/
theorem andStep_spec_witness :
    andStep ⟨str "T", [(0, 1)], [], 1⟩ ⟨str "T", [(1, 2)], [], 1⟩ =
        combine_with ⟨str "T", [(0, 1)], [], 1⟩ ⟨str "T", [(1, 2)], [], 1⟩ ∧
      (andStep ⟨str "U", [(2, 3)], [], 1⟩ ⟨str "U", [], [], 0⟩).title_spans = [(2, 3)] :=
  ⟨(andStep_spec ⟨str "T", [(0, 1)], [], 1⟩ ⟨str "T", [(1, 2)], [], 1⟩).1
      (by decide) (by decide),
    ((andStep_spec ⟨str "U", [(2, 3)], [], 1⟩ ⟨str "U", [], [], 0⟩).2 (Or.inr rfl)).2.1⟩

unseal List.merge List.mergeSort in
/-- C1 at the failing input: the two per-word results and the freshly
combined result all satisfy the §3 invariant, but the combination step
extends the still-held earlier result's shared span list in place
(shallow-copy aliasing) without touching its `matches`, so that retained
result violates the invariant afterwards. -/
theorem combine_aliasing_breaks_invariant :
    resInvariant (search_for ⟨str "T", [str "ab"]⟩ (str "a")) ∧
      resInvariant (search_for ⟨str "T", [str "ab"]⟩ (str "b")) ∧
      resInvariant (combine_with (search_for ⟨str "T", [str "ab"]⟩ (str "a"))
        (search_for ⟨str "T", [str "ab"]⟩ (str "b"))) ∧
      ¬ resInvariant (combine_with_self_after (search_for ⟨str "T", [str "ab"]⟩ (str "a"))
          (search_for ⟨str "T", [str "ab"]⟩ (str "b"))) := by
  decide

/-- C3 at the failing input: `a.combine_with(b)` observably mutates the
receiver `a` — `a`'s only line match has span list `[(0,1)]` before the
call and `[(0,1),(1,2)]` after it. -/
theorem combine_mutates_receiver :
    ((search_for ⟨str "T", [str "ab"]⟩ (str "a")).line_matches.map fun lm => lm.spans) =
        [[(0, 1)]] ∧
      ((combine_with_self_after (search_for ⟨str "T", [str "ab"]⟩ (str "a"))
          (search_for ⟨str "T", [str "ab"]⟩ (str "b"))).line_matches.map
          fun lm => lm.spans) = [[(0, 1), (1, 2)]] ∧
      combine_with_self_after (search_for ⟨str "T", [str "ab"]⟩ (str "a"))
          (search_for ⟨str "T", [str "ab"]⟩ (str "b")) ≠
        search_for ⟨str "T", [str "ab"]⟩ (str "a") := by
  decide

/-! ### Facts about the span renderer -/

/-- Runs chained from a left boundary: each run starts at or after the
boundary and ends at or after its own start, and the runs that follow
are chained from its end. -/
def chainFrom : Nat → List (Nat × Nat) → Prop
  | _, [] => True
  | i, (s, e) :: rest => i ≤ s ∧ s ≤ e ∧ chainFrom e rest

/-- Maximal runs: like `chainFrom`, but consecutive runs are separated
by a positive gap (the next run starts strictly after the previous end,
so no further merging of touching or overlapping runs is possible). -/
def sepRuns : Nat → List (Nat × Nat) → Prop
  | _, [] => True
  | i, (s, e) :: rest => i ≤ s ∧ s ≤ e ∧ sepRuns (e + 1) rest

theorem chainFrom_of_sepRuns :
    ∀ {runs : List (Nat × Nat)} {i j : Nat}, j ≤ i → sepRuns i runs → chainFrom j runs
  | [], _, _, _, _ => trivial
  | (s, e) :: rest, i, j, hj, h => by
    obtain ⟨h1, h2, h3⟩ := h
    exact ⟨Nat.le_trans hj h1, h2, chainFrom_of_sepRuns (Nat.le_succ e) h3⟩

theorem spanLe_trans (a b c : Nat × Nat) (hab : spanLe a b) (hbc : spanLe b c) :
    spanLe a c := by
  simp only [spanLe, decide_eq_true_eq] at hab hbc ⊢
  omega

theorem spanLe_total (a b : Nat × Nat) : spanLe a b || spanLe b a := by
  rw [Bool.or_eq_true]
  simp only [spanLe, decide_eq_true_eq]
  omega

theorem sortSpans_sorted_fst (l : List (Nat × Nat)) :
    (sortSpans l).Pairwise fun p q => p.1 ≤ q.1 := by
  refine (List.sorted_mergeSort spanLe_trans spanLe_total l).imp ?_
  intro p q h
  simp only [spanLe, decide_eq_true_eq] at h
  omega

theorem mem_sortSpans {l : List (Nat × Nat)} {p : Nat × Nat} :
    p ∈ sortSpans l ↔ p ∈ l := List.mem_mergeSort

theorem mergeLoop_sep :
    ∀ (rest : List (Nat × Nat)) (cs ce i : Nat), i ≤ cs → cs ≤ ce →
      (∀ p ∈ rest, cs ≤ p.1 ∧ p.1 ≤ p.2) →
      rest.Pairwise (fun p q => p.1 ≤ q.1) →
      sepRuns i (mergeLoop cs ce rest)
  | [], cs, ce, i, h1, h2, _, _ => ⟨h1, h2, trivial⟩
  | (s, e) :: rest, cs, ce, i, h1, h2, hall, hpw => by
    rw [mergeLoop]
    rcases List.pairwise_cons.1 hpw with ⟨hhead, htail⟩
    split
    · exact mergeLoop_sep rest cs (max ce e) i h1 (Nat.le_trans h2 (Nat.le_max_left ce e))
        (fun p hp => hall p (List.mem_cons_of_mem _ hp)) htail
    · rename_i hgt
      refine ⟨h1, h2, mergeLoop_sep rest s e (ce + 1) (by omega)
        (hall (s, e) (List.mem_cons_self _ _)).2 ?_ htail⟩
      intro p hp
      exact ⟨hhead p hp, (hall p (List.mem_cons_of_mem _ hp)).2⟩

theorem mergeLoop_covers :
    ∀ (rest : List (Nat × Nat)) (cs ce : Nat),
      (∀ p ∈ rest, cs ≤ p.1 ∧ p.1 ≤ p.2) →
      rest.Pairwise (fun p q => p.1 ≤ q.1) →
      ∀ p : Nat × Nat, p = (cs, ce) ∨ p ∈ rest →
        ∃ q ∈ mergeLoop cs ce rest, q.1 ≤ p.1 ∧ p.2 ≤ q.2
  | [], cs, ce, _, _, p, hp => by
    rcases hp with rfl | hp
    · exact ⟨(cs, ce), List.mem_singleton.2 rfl, Nat.le_refl _, Nat.le_refl _⟩
    · cases hp
  | (s, e) :: rest, cs, ce, hall, hpw, p, hp => by
    rw [mergeLoop]
    rcases List.pairwise_cons.1 hpw with ⟨hhead, htail⟩
    have hse := hall (s, e) (List.mem_cons_self _ _)
    split
    · rename_i hle
      have ih := mergeLoop_covers rest cs (max ce e)
        (fun x hx => hall x (List.mem_cons_of_mem _ hx)) htail
      rcases hp with rfl | hp
      · obtain ⟨q, hq, hq1, hq2⟩ := ih (cs, max ce e) (Or.inl rfl)
        exact ⟨q, hq, hq1, Nat.le_trans (Nat.le_max_left ce e) hq2⟩
      · rcases List.mem_cons.1 hp with rfl | hp
        · obtain ⟨q, hq, hq1, hq2⟩ := ih (cs, max ce e) (Or.inl rfl)
          exact ⟨q, hq, Nat.le_trans hq1 hse.1, Nat.le_trans (Nat.le_max_right ce e) hq2⟩
        · obtain ⟨q, hq, hq1, hq2⟩ := ih p (Or.inr hp)
          exact ⟨q, hq, hq1, hq2⟩
    · have ih := mergeLoop_covers rest s e
        (fun x hx => ⟨hhead x hx, (hall x (List.mem_cons_of_mem _ hx)).2⟩) htail
      rcases hp with rfl | hp
      · exact ⟨(cs, ce), List.mem_cons_self _ _, Nat.le_refl _, Nat.le_refl _⟩
      · rcases List.mem_cons.1 hp with rfl | hp
        · obtain ⟨q, hq, hq1, hq2⟩ := ih (s, e) (Or.inl rfl)
          exact ⟨q, List.mem_cons_of_mem _ hq, hq1, hq2⟩
        · obtain ⟨q, hq, hq1, hq2⟩ := ih p (Or.inr hp)
          exact ⟨q, List.mem_cons_of_mem _ hq, hq1, hq2⟩

theorem mergeRuns_sep {spans : List (Nat × Nat)} (h : ∀ p ∈ spans, p.1 ≤ p.2) :
    sepRuns 0 (mergeRuns (sortSpans spans)) := by
  rcases hs : sortSpans spans with _ | ⟨⟨s, e⟩, rest⟩
  · trivial
  · have hpw := sortSpans_sorted_fst spans
    rw [hs] at hpw
    rcases List.pairwise_cons.1 hpw with ⟨hhead, htail⟩
    have hmem : ∀ p : Nat × Nat, p ∈ (s, e) :: rest → p ∈ spans := by
      intro p hp
      rw [← hs] at hp
      exact mem_sortSpans.1 hp
    rw [mergeRuns]
    refine mergeLoop_sep rest s e 0 (Nat.zero_le s)
      (h (s, e) (hmem _ (List.mem_cons_self _ _))) ?_ htail
    intro p hp
    exact ⟨hhead p hp, h p (hmem _ (List.mem_cons_of_mem _ hp))⟩

theorem mergeRuns_covers {spans : List (Nat × Nat)} (h : ∀ p ∈ spans, p.1 ≤ p.2) :
    ∀ p ∈ spans, ∃ q ∈ mergeRuns (sortSpans spans), q.1 ≤ p.1 ∧ p.2 ≤ q.2 := by
  intro p hp
  have hp' : p ∈ sortSpans spans := mem_sortSpans.2 hp
  rcases hs : sortSpans spans with _ | ⟨⟨s, e⟩, rest⟩
  · rw [hs] at hp'
    cases hp'
  · have hpw := sortSpans_sorted_fst spans
    rw [hs] at hpw
    rcases List.pairwise_cons.1 hpw with ⟨hhead, htail⟩
    have hmem : ∀ x : Nat × Nat, x ∈ (s, e) :: rest → x ∈ spans := by
      intro x hx
      rw [← hs] at hx
      exact mem_sortSpans.1 hx
    rw [hs] at hp'
    rw [mergeRuns]
    refine mergeLoop_covers rest s e ?_ htail p ?_
    · intro x hx
      exact ⟨hhead x hx, h x (hmem _ (List.mem_cons_of_mem _ hx))⟩
    · rcases List.mem_cons.1 hp' with rfl | hx
      · exact Or.inl rfl
      · exact Or.inr hx

theorem buildPieces_join (text color : List Char) :
    ∀ (runs : List (Nat × Nat)) (i : Nat),
      joinPieces (buildPieces text color i runs) = buildOut text color i runs
  | [], i => by simp [joinPieces, buildPieces, buildOut]
  | (s, e) :: rest, i => by
    simp only [joinPieces, buildPieces, buildOut, List.map_cons, List.flatten_cons]
    rw [← buildPieces_join text color rest e]
    simp [joinPieces, List.append_assoc]

theorem buildPieces_strip (text color : List Char) :
    ∀ (runs : List (Nat × Nat)) (i : Nat), chainFrom i runs →
      stripPieces (buildPieces text color i runs) = text.drop i
  | [], i, _ => by simp [stripPieces, buildPieces]
  | (s, e) :: rest, i, h => by
    obtain ⟨h1, h2, h3⟩ := h
    simp only [stripPieces, buildPieces, List.map_cons, List.flatten_cons]
    rw [show ∀ l : List Piece,
        (l.map fun p => match p with | Piece.txt cs => cs | Piece.marker _ => ([] : List Char)).flatten
          = stripPieces l from fun _ => rfl]
    rw [buildPieces_strip text color rest e h3]
    simp only [List.nil_append, ← List.append_assoc]
    rw [pySlice_glue text h1 h2, pySlice_glue_drop text (Nat.le_trans h1 h2)]

theorem chainFrom_mergeRuns {spans : List (Nat × Nat)} (h : ∀ p ∈ spans, p.1 ≤ p.2) :
    chainFrom 0 (mergeRuns (sortSpans spans)) :=
  chainFrom_of_sepRuns (Nat.le_refl 0) (mergeRuns_sep h)

/-- C6: the renderer's output decomposes into verbatim-text pieces and
inserted-marker pieces — `ansi_highlight` is the concatenation of all
pieces — and removing every inserted marker (keeping only the text
pieces) reconstructs the input text exactly, for any span sequence whose
spans satisfy `start ≤ end` and either style; in particular an empty span
sequence returns the text unchanged. -/
theorem render_round_trip (text : List Char) (spans : List (Nat × Nat))
    (highlight_mode : String) (h : ∀ p ∈ spans, p.1 ≤ p.2) :
    ansi_highlight text spans highlight_mode =
        joinPieces (renderPieces text spans highlight_mode) ∧
      stripPieces (renderPieces text spans highlight_mode) = text ∧
      ansi_highlight text [] highlight_mode = text := by
  refine ⟨?_, ?_, rfl⟩
  · rw [ansi_highlight, renderPieces]
    split
    · simp [joinPieces]
    · exact (buildPieces_join text (colorOf highlight_mode) (mergeRuns (sortSpans spans)) 0).symm
  · rw [renderPieces]
    split
    · simp [stripPieces]
    · have h0 := buildPieces_strip text (colorOf highlight_mode)
        (mergeRuns (sortSpans spans)) 0 (chainFrom_mergeRuns h)
      simpa using h0

/-- Witness for `render_round_trip` at a concrete text, span list and
style. -/
theorem render_round_trip_witness :
    stripPieces (renderPieces (str "abcdef") [(2, 4), (0, 2)] "GREEN") = str "abcdef" :=
  (render_round_trip (str "abcdef") [(2, 4), (0, 2)] "GREEN" (by decide)).2.1

unseal List.merge List.mergeSort in
/-- C7: the renderer sorts the spans by `(start, end)` and merges any
spans that overlap or touch (next start `≤` current merged end) into
maximal runs — the merged runs are separated by positive gaps, so no two
of them touch or overlap, and every input span is covered by some merged
run — wrapping each merged run in exactly one colour/reset marker pair;
concretely, rendering "abcdef" with spans `[(0,2),(2,4)]` merges to the
single run `(0,4)` and produces exactly one marker pair bracketing
"abcd". -/
theorem render_merge_spec (spans : List (Nat × Nat)) (h : ∀ p ∈ spans, p.1 ≤ p.2) :
    sepRuns 0 (mergeRuns (sortSpans spans)) ∧
      (∀ p ∈ spans, ∃ q ∈ mergeRuns (sortSpans spans), q.1 ≤ p.1 ∧ p.2 ≤ q.2) ∧
      mergeRuns (sortSpans [(0, 2), (2, 4)]) = [(0, 4)] ∧
      ansi_highlight (str "abcdef") [(0, 2), (2, 4)] "DEFAULT" =
        defaultCode ++ str "abcd" ++ resetCode ++ str "ef" :=
  ⟨mergeRuns_sep h, mergeRuns_covers h, by decide, by decide⟩

/-- Witness for `render_merge_spec`: the merged-run properties at the
concrete span list of the example. -/
theorem render_merge_spec_witness :
    sepRuns 0 (mergeRuns (sortSpans [(0, 2), (2, 4)])) ∧
      mergeRuns (sortSpans [(0, 2), (2, 4)]) = [(0, 4)] :=
  ⟨(render_merge_spec [(0, 2), (2, 4)] (by decide)).1,
    (render_merge_spec [(0, 2), (2, 4)] (by decide)).2.2.1⟩

/-! ### Facts about result display -/

/-- C9: after the query is evaluated, results with `matches = 0` are
excluded from display and the others are kept, in original corpus order
(the displayed list is a sublist of the input), numbered `1..k` within
the displayed subset only; the summary line reports the matched count
out of the total; and on the two-document corpus (doc "A" with lines
["to be", "or not to be"], doc "B" with line ["never"]) and query "be",
doc A ends with 2 matches, doc B is excluded, and the summary reads
"1 out of 2 sonnets contain \"be\".". -/
theorem print_results_spec (results : List SearchResult) :
    (∀ r ∈ results, (0 < r.matches → r ∈ matched_results results) ∧
        (r.matches = 0 → r ∉ matched_results results)) ∧
      (matched_results results).Sublist results ∧
      (displayed results).map Prod.fst = List.range' 1 (matched_results results).length ∧
      (displayed results).map Prod.snd = matched_results results ∧
      ((([⟨str "A", [str "to be", str "or not to be"]⟩,
            ⟨str "B", [str "never"]⟩] : List Sonnet).map
          fun s => search_for s (str "be")).map fun r => r.matches) = [2, 0] ∧
      ((matched_results (([⟨str "A", [str "to be", str "or not to be"]⟩,
            ⟨str "B", [str "never"]⟩] : List Sonnet).map
          fun s => search_for s (str "be"))).map fun r => r.title) = [str "A"] ∧
      summary_line "be" (([⟨str "A", [str "to be", str "or not to be"]⟩,
          ⟨str "B", [str "never"]⟩] : List Sonnet).map fun s => search_for s (str "be")) =
        "1 out of 2 sonnets contain \"be\"." := by
  refine ⟨?_, List.filter_sublist results, List.enumFrom_map_fst 1 _,?_,
    by decide, by decide, by decide⟩
  · intro r hr
    constructor
    · intro hpos
      rw [matched_results, List.mem_filter]
      exact ⟨hr, by simpa using hpos⟩
    · intro hzero hmem
      rw [matched_results, List.mem_filter] at hmem
      have := hmem.2
      simp only [decide_eq_true_eq] at this
      omega
  · exact List.enumFrom_map_snd 1 (matched_results results)

/-- Witness for `print_results_spec`: inclusion and exclusion at the
concrete two-document corpus. -/
theorem print_results_spec_witness :
    search_for ⟨str "A", [str "to be", str "or not to be"]⟩ (str "be") ∈
        matched_results (([⟨str "A", [str "to be", str "or not to be"]⟩,
          ⟨str "B", [str "never"]⟩] : List Sonnet).map fun s => search_for s (str "be")) ∧
      search_for ⟨str "B", [str "never"]⟩ (str "be") ∉
        matched_results (([⟨str "A", [str "to be", str "or not to be"]⟩,
          ⟨str "B", [str "never"]⟩] : List Sonnet).map fun s => search_for s (str "be")) :=
  ⟨(((print_results_spec (([⟨str "A", [str "to be", str "or not to be"]⟩,
        ⟨str "B", [str "never"]⟩] : List Sonnet).map fun s => search_for s (str "be"))).1
      (search_for ⟨str "A", [str "to be", str "or not to be"]⟩ (str "be"))
      (by decide)).1 (by decide)),
    (((print_results_spec (([⟨str "A", [str "to be", str "or not to be"]⟩,
        ⟨str "B", [str "never"]⟩] : List Sonnet).map fun s => search_for s (str "be"))).1
      (search_for ⟨str "B", [str "never"]⟩ (str "be"))
      (by decide)).2 (by decide))⟩
